import Mathlib

/-!
Verification development for the line-deduplication tool
(`final_dedupe_cli.py` and `collision_dedup_cli.py`).

The Python code is shallowly embedded:

* the xxHash32 hash used by `final_dedupe_cli.py` (`xxhash.xxh32(line, seed=0)`)
  is implemented bit-faithfully on `Nat` with explicit reduction mod `2^32`;
* the `HashStore` dictionary becomes an association list from the 32-bit hash
  value to the stored line (the Python dict is keyed by `hexdigest()`, which is
  in bijection with the 32-bit value, so keying by the value is equivalent);
* the engine operations `add_item`, `process_and_encode`, `decode_and_print`
  and `seed_from_glob` become pure functions threading the store and
  accumulating the bytes written, the lines printed, and the warnings printed;
* process-level behaviour (exit codes, the `_load`/`save` try/except logic)
  is modelled by functions over an abstract file-content type.
-/

/-! ## Bytes of a string

Python hashes the UTF-8 encoding of the line (`xxhash.xxh32` encodes `str`
arguments as UTF-8). `utf8Bytes` is the standard UTF-8 encoding of a code
point; `strBytes` encodes a whole string. -/

/-- UTF-8 encoding of a single code point, as a list of byte values. -/
def utf8Bytes (c : Nat) : List Nat :=
  if c < 128 then [c]
  else if c < 2048 then [192 + c / 64, 128 + c % 64]
  else if c < 65536 then [224 + c / 4096, 128 + c / 64 % 64, 128 + c % 64]
  else [240 + c / 262144, 128 + c / 4096 % 64, 128 + c / 64 % 64, 128 + c % 64]

/-- UTF-8 bytes of a string. -/
def strBytes (s : String) : List Nat :=
  s.data.flatMap (fun c => utf8Bytes c.toNat)

/-! ## xxHash32

Faithful implementation of XXH32 (the hash behind `xxhash.xxh32(line, seed=0)`
in `final_dedupe_cli.py`), on `Nat` with explicit mod `2^32`. -/

/-- The 32-bit modulus. -/
def M32 : Nat := 4294967296

/-- First xxHash32 prime. -/
def xxP1 : Nat := 2654435761
/-- Second xxHash32 prime. -/
def xxP2 : Nat := 2246822519
/-- Third xxHash32 prime. -/
def xxP3 : Nat := 3266489917
/-- Fourth xxHash32 prime. -/
def xxP4 : Nat := 668265263
/-- Fifth xxHash32 prime. -/
def xxP5 : Nat := 374761393

/-- Addition mod `2^32`. -/
def add32 (a b : Nat) : Nat := (a + b) % M32

/-- Multiplication mod `2^32`. -/
def mul32 (a b : Nat) : Nat := (a * b) % M32

/-- Left rotation of a 32-bit value by `r` bits (`0 < r < 32`). -/
def rotl32 (x r : Nat) : Nat := x % 2 ^ (32 - r) * 2 ^ r + x / 2 ^ (32 - r)

/-- Little-endian 32-bit lane from four bytes. -/
def lane32 (b0 b1 b2 b3 : Nat) : Nat := b0 + b1 * 256 + b2 * 65536 + b3 * 16777216

/-- One accumulator round of the 16-byte stripe loop. -/
def xxRound (acc lane : Nat) : Nat := mul32 (rotl32 (add32 acc (mul32 lane xxP2)) 13) xxP1

/-- The 16-byte stripe loop: consumes full 16-byte stripes, returning the four
accumulators and the unconsumed remainder. -/
def xxStripes : List Nat → Nat × Nat × Nat × Nat → (Nat × Nat × Nat × Nat) × List Nat
  | b0 :: b1 :: b2 :: b3 :: b4 :: b5 :: b6 :: b7 ::
    b8 :: b9 :: b10 :: b11 :: b12 :: b13 :: b14 :: b15 :: rest, (v1, v2, v3, v4) =>
      xxStripes rest
        (xxRound v1 (lane32 b0 b1 b2 b3), xxRound v2 (lane32 b4 b5 b6 b7),
         xxRound v3 (lane32 b8 b9 b10 b11), xxRound v4 (lane32 b12 b13 b14 b15))
  | l, vs => (vs, l)

/-- The trailing 4-byte-lane loop. Returns the updated accumulator and the
remaining (at most three) bytes. -/
def xxTail4 : List Nat → Nat → Nat × List Nat
  | b0 :: b1 :: b2 :: b3 :: rest, acc =>
      xxTail4 rest (mul32 (rotl32 (add32 acc (mul32 (lane32 b0 b1 b2 b3) xxP3)) 17) xxP4)
  | l, acc => (acc, l)

/-- The trailing single-byte loop. -/
def xxTail1 : List Nat → Nat → Nat
  | [], acc => acc
  | b :: rest, acc => xxTail1 rest (mul32 (rotl32 (add32 acc (mul32 b xxP5)) 11) xxP1)

/-- The final avalanche mix. -/
def xxAvalanche (h : Nat) : Nat :=
  let h1 := h ^^^ h >>> 15
  let h2 := mul32 h1 xxP2
  let h3 := h2 ^^^ h2 >>> 13
  let h4 := mul32 h3 xxP3
  h4 ^^^ h4 >>> 16

/-- XXH32 of a byte sequence with the given seed. -/
def xxh32 (data : List Nat) (seed : Nat) : Nat :=
  let n := data.length
  let sr :=
    if 16 ≤ n then
      let p :=
        xxStripes data
          (add32 (add32 seed xxP1) xxP2, add32 seed xxP2, seed % M32,
           (seed % M32 + M32 - xxP1) % M32)
      (add32 (add32 (rotl32 p.1.1 1) (rotl32 p.1.2.1 7))
         (add32 (rotl32 p.1.2.2.1 12) (rotl32 p.1.2.2.2 18)), p.2)
    else ((seed + xxP5) % M32, data)
  let acc1 := (sr.1 + n) % M32
  let t4 := xxTail4 sr.2 acc1
  xxAvalanche (xxTail1 t4.2 t4.1)

/-- Hash of a line, exactly as `final_dedupe_cli.py` computes it:
`xxhash.xxh32(line, seed=0)`. -/
def lineHash (line : String) : Nat := xxh32 (strBytes line) 0

/-- Big-endian 4-byte digest of a 32-bit hash value; this is what
`xxhash`-object `.digest()` returns and what encode writes to the stream. -/
def digest (h : Nat) : List Nat :=
  [h / 16777216 % 256, h / 65536 % 256, h / 256 % 256, h % 256]

/-! ## The hash store

`HashStore` in `final_dedupe_cli.py` keeps `self.store : Dict[str, str]` from
the hash's hex digest to the original line. The hex digest of an `xxh32`
object is in bijection with its 32-bit value, so the store is modelled as an
association list keyed by the value. New entries are appended; keys are never
inserted twice, so list order is irrelevant to lookup. -/

/-- The hash-to-line mapping held by `HashStore`. -/
abbrev Store := List (Nat × String)

/-- Dictionary lookup: the line stored under hash `h`, if any. -/
def storeFind : Store → Nat → Option String
  | [], _ => none
  | (k, v) :: rest, h => if k = h then some v else storeFind rest h

/-- Warnings and notices the Python code prints while running. -/
inductive Event
  /-- The collision warning printed by `HashStore.add_item`, identifying the
  hash, the existing line and the rejected line. -/
  | collision (h : Nat) (existing rejected : String)
  /-- The warning printed by `decode_and_print` for a hash that is not in the
  store, identifying the missing hash. -/
  | missingHash (h : Nat)
  /-- The incomplete-hash-block warning printed by `decode_and_print`. -/
  | truncatedStream
deriving DecidableEq, Repr

/-- Result of `HashStore.add_item`: the updated store, the returned boolean,
and any warning printed. -/
structure AddResult where
  store : Store
  added : Bool
  events : List Event
deriving DecidableEq, Repr

/-- Model of `HashStore.add_item`: first writer wins; a second insert under
the same hash is a no-op, with a collision warning when the line differs. -/
def add_item (st : Store) (h : Nat) (text : String) : AddResult :=
  match storeFind st h with
  | some existing =>
      if existing ≠ text then ⟨st, false, [Event.collision h existing text]⟩
      else ⟨st, false, []⟩
  | none => ⟨st ++ [(h, text)], true, []⟩

/-! ## Line handling -/

/-- Model of Python's `line.rstrip('\n')`: remove trailing newline
characters. -/
def rstripNewline (s : String) : String :=
  String.mk ((s.data.reverse.dropWhile (fun c => c == '\n')).reverse)

/-- Result of encoding one line: updated store, bytes written to the output
file, warnings printed. -/
structure EncStep where
  store : Store
  bytes : List Nat
  events : List Event
deriving DecidableEq, Repr

/-- Model of one iteration of the encode loop in
`DedupeEngine.process_and_encode`: strip the newline; a blank line writes the
single marker byte `0x00`; a non-blank line is hashed, offered to the store,
and its 4-byte digest is written regardless of the insertion result. -/
def encodeLine (st : Store) (raw : String) : EncStep :=
  let line := rstripNewline raw
  if line = "" then ⟨st, [0], []⟩
  else
    let h := lineHash line
    let r := add_item st h line
    ⟨r.store, digest h, r.events⟩

/-- Result of `process_and_encode` over a whole input file. -/
structure EncodeResult where
  store : Store
  out : List Nat
  events : List Event
deriving DecidableEq, Repr

/-- Model of `DedupeEngine.process_and_encode`, processing the input file's
lines in order. -/
def process_and_encode (st : Store) : List String → EncodeResult
  | [] => ⟨st, [], []⟩
  | raw :: rest =>
      let s := encodeLine st raw
      let r := process_and_encode s.store rest
      ⟨r.store, s.bytes ++ r.out, s.events ++ r.events⟩

/-- Model of one iteration of the seeding loop in
`DedupeEngine.seed_from_glob`: strip the newline, skip blank lines, otherwise
hash and offer to the store; returns the updated store and whether the line
was newly added. -/
def seedLine (st : Store) (raw : String) : Store × Bool :=
  let line := rstripNewline raw
  if line = "" then (st, false)
  else
    let r := add_item st (lineHash line) line
    (r.store, r.added)

/-! ## Decoding -/

/-- Result of `decode_and_print`: the store (decode threads it unchanged),
the lines printed, the warnings printed, and whether decoding stopped on an
incomplete trailing hash block. -/
@[ext]
structure DecodeResult where
  store : Store
  lines : List String
  events : List Event
  truncated : Bool
deriving DecidableEq, Repr

/-- Model of the loop of `DedupeEngine.decode_and_print`: read one byte; the
marker `0x00` prints an empty line; otherwise read three more bytes (fewer
than three remaining is the truncation warning and stops the loop), rebuild
the 32-bit hash, and print the stored line, or a missing-hash warning and no
line. -/
def decode_and_print (st : Store) : List Nat → DecodeResult
  | [] => ⟨st, [], [], false⟩
  | b :: rest =>
      if b = 0 then
        let r := decode_and_print st rest
        ⟨r.store, "" :: r.lines, r.events, r.truncated⟩
      else
        match rest with
        | b1 :: b2 :: b3 :: rest3 =>
            let h := b * 16777216 + b1 * 65536 + b2 * 256 + b3
            let r := decode_and_print st rest3
            match storeFind st h with
            | some line => ⟨r.store, line :: r.lines, r.events, r.truncated⟩
            | none => ⟨r.store, r.lines, Event.missingHash h :: r.events, r.truncated⟩
        | _ => ⟨st, [], [Event.truncatedStream], true⟩

/-! ## Process-level behaviour of the two CLI tools

Exit codes are modelled for the code paths the spec talks about. File
contents are passed in directly (`none` models a missing file); saving the
store is modelled as succeeding, which is the only case the claims below are
about. -/

/-- Result of running `final_dedupe_cli.py --decode`: the process exit code
and, when decoding ran, its result. -/
structure DecodeRun where
  exitCode : Nat
  result : Option DecodeResult
deriving DecidableEq, Repr

/-- Model of `final_dedupe_cli.py` run with `--decode`: a missing hash file
is `sys.exit(1)`; otherwise `decode_and_print` runs to completion (the
truncation warning only breaks the loop), `main` saves the store, and the
process exits 0. -/
def decodeOp (st : Store) (hashFileContent : Option (List Nat)) : DecodeRun :=
  match hashFileContent with
  | none => ⟨1, none⟩
  | some bytes => ⟨0, some (decode_and_print st bytes)⟩

/-- Model of `DedupeEngine.seed_from_glob` of `final_dedupe_cli.py` over the
list of matched files, each given as its list of lines: when no file matches
it prints a notice and returns; otherwise every line of every file is offered
to the store. Returns the store, total lines processed, and unique lines
added. -/
def seed_from_glob (st : Store) (files : List (List String)) : Store × Nat × Nat :=
  files.foldl
    (fun acc fileLines =>
      fileLines.foldl
        (fun acc2 raw =>
          let (st2, added) := seedLine acc2.1 raw
          (st2, acc2.2.1 + 1, acc2.2.2 + (if added then 1 else 0)))
        acc)
    (st, 0, 0)

/-- Model of `final_dedupe_cli.py` run with `--seed`: `seed_from_glob` never
exits; `main` then saves the store and the process exits 0, so the exit code
is 0 whether or not any file matched the glob. -/
def finalSeedRun (st : Store) (files : List (List String)) : Nat × Store :=
  (0, (seed_from_glob st files).1)

/-- Model of `collision_dedup_cli.py` run with `--seed`, restricted to its
exit code: when no file matches the glob it prints a warning and calls
`sys.exit(1)`; otherwise seeding and saving complete and the process exits
0 (all per-file errors are caught and skipped, and `save_store` only prints
on failure). -/
def collisionSeedExit (files : List (List String)) : Nat :=
  if files = [] then 1 else 0

/-! ## Persistence of the store

`HashStore._load`/`save` in `final_dedupe_cli.py` go through `gzip` +
`pickle`, which cannot be modelled byte-by-byte; file contents are instead
classified by how `gzip.open` + `pickle.load` behave on them. A valid blob
parses to its mapping. Unparsable contents are classified by the exception
raised: arbitrary non-gzip bytes raise `gzip.BadGzipFile`, a subclass of
`OSError = IOError`; gzip-wrapped non-pickle data raises
`pickle.UnpicklingError`; a gzip stream truncated before its end-of-stream
marker raises `EOFError` (a direct subclass of `Exception`, not of
`OSError`); anything else is `otherError`. -/

/-- Contents of a store file, classified by parse behaviour. -/
inductive BlobContent
  /-- A valid gzip-compressed pickle of the mapping `m`. -/
  | blob (m : Store)
  /-- Contents on which parsing raises `IOError` (e.g. bad gzip magic). -/
  | ioError
  /-- Contents on which parsing raises `pickle.UnpicklingError`. -/
  | unpicklingError
  /-- Contents on which parsing raises `EOFError` (truncated gzip stream). -/
  | eofError
  /-- Contents on which parsing raises any other exception. -/
  | otherError
deriving DecidableEq

/-- Outcome of constructing a `HashStore` (which calls `_load`). -/
inductive LoadOutcome
  /-- Construction returned a store; `warned` records whether the
  could-not-load warning was printed. -/
  | ok (st : Store) (warned : Bool)
  /-- An exception escaped `_load` uncaught: the process dies with a
  traceback (non-zero exit). -/
  | fatal
deriving DecidableEq

/-- Model of `HashStore._load` in `final_dedupe_cli.py`: a missing file
yields an empty store; an existing file is parsed, `except (IOError,
pickle.UnpicklingError)` yields an empty store with a warning, and any other
exception propagates out of the constructor. -/
def hashStoreLoad (file : Option BlobContent) : LoadOutcome :=
  match file with
  | none => LoadOutcome.ok [] false
  | some (BlobContent.blob m) => LoadOutcome.ok m false
  | some BlobContent.ioError => LoadOutcome.ok [] true
  | some BlobContent.unpicklingError => LoadOutcome.ok [] true
  | some BlobContent.eofError => LoadOutcome.fatal
  | some BlobContent.otherError => LoadOutcome.fatal

/-- Model of a successful `HashStore.save`: the file now holds a valid blob
of the current mapping. -/
def hashStoreSave (st : Store) : BlobContent := BlobContent.blob st

/-! ## Sanity anchors for the hash implementation

The four standard XXH32 test vectors (the last one exercises the 16-byte
stripe loop). -/

example : xxh32 (strBytes "") 0 = 0x02CC5D05 := by decide
example : xxh32 (strBytes "a") 0 = 0x550D7456 := by decide
example : xxh32 (strBytes "abc") 0 = 0x32D153FF := by decide
example : xxh32 (strBytes "Nobody inspects the spammish repetition") 0 = 0xE2293B2F := by
  decide

/-! ## Bounds on the hash -/

theorem M32_pos : 0 < M32 := by norm_num [M32]

theorem M32_eq_pow : M32 = 2 ^ 32 := by norm_num [M32]

theorem mul32_lt (a b : Nat) : mul32 a b < M32 := Nat.mod_lt _ M32_pos

theorem xxAvalanche_lt (h : Nat) : xxAvalanche h < M32 := by
  have h2 : mul32 (h ^^^ h >>> 15) xxP2 < M32 := mul32_lt _ _
  have h4 : mul32 (mul32 (h ^^^ h >>> 15) xxP2 ^^^ mul32 (h ^^^ h >>> 15) xxP2 >>> 13) xxP3
      < M32 := mul32_lt _ _
  have hs : mul32 (mul32 (h ^^^ h >>> 15) xxP2 ^^^ mul32 (h ^^^ h >>> 15) xxP2 >>> 13) xxP3 >>> 16
      ≤ mul32 (mul32 (h ^^^ h >>> 15) xxP2 ^^^ mul32 (h ^^^ h >>> 15) xxP2 >>> 13) xxP3 := by
    rw [Nat.shiftRight_eq_div_pow]
    exact Nat.div_le_self _ _
  rw [xxAvalanche, M32_eq_pow]
  exact Nat.xor_lt_two_pow (M32_eq_pow ▸ h4) (Nat.lt_of_le_of_lt hs (M32_eq_pow ▸ h4))

theorem xxh32_lt (data : List Nat) (seed : Nat) : xxh32 data seed < M32 := by
  rw [xxh32]
  exact xxAvalanche_lt _

theorem lineHash_lt (line : String) : lineHash line < M32 := xxh32_lt _ _

/-! ## Digest lemmas -/

theorem digest_rebuild (h : Nat) (hlt : h < M32) :
    h / 16777216 % 256 * 16777216 + h / 65536 % 256 * 65536 + h / 256 % 256 * 256 + h % 256
      = h := by
  rw [M32] at hlt
  omega

theorem digest_head_ne (h : Nat) (hge : 16777216 ≤ h) (hlt : h < M32) :
    h / 16777216 % 256 ≠ 0 := by
  rw [M32] at hlt
  omega

/-! ## Store lemmas -/

theorem storeFind_append_of_some (s t : Store) (k : Nat) (v : String)
    (h : storeFind s k = some v) : storeFind (s ++ t) k = some v := by
  induction s with
  | nil => simp [storeFind] at h
  | cons p rest ih =>
      rw [storeFind] at h
      rw [List.cons_append, storeFind]
      split at h
      · rw [if_pos ‹p.1 = k›]
        exact h
      · rw [if_neg ‹¬p.1 = k›]
        exact ih h

theorem storeFind_append_of_none (s t : Store) (k : Nat)
    (h : storeFind s k = none) : storeFind (s ++ t) k = storeFind t k := by
  induction s with
  | nil => simp
  | cons p rest ih =>
      rw [storeFind] at h
      rw [List.cons_append, storeFind]
      split at h
      · exact absurd h (by simp)
      · rw [if_neg ‹¬p.1 = k›]
        exact ih h

theorem storeFind_mem (s : Store) (k : Nat) (v : String)
    (h : storeFind s k = some v) : (k, v) ∈ s := by
  induction s with
  | nil => simp [storeFind] at h
  | cons p rest ih =>
      rw [storeFind] at h
      split at h
      · have hv : p.2 = v := by injection h
        have : p = (k, v) := by
          obtain ⟨a, b⟩ := p
          simp_all
        simp [this]
      · exact List.mem_cons_of_mem _ (ih h)

theorem add_item_of_none (st : Store) (k : Nat) (v : String)
    (h : storeFind st k = none) : add_item st k v = ⟨st ++ [(k, v)], true, []⟩ := by
  rw [add_item, h]

theorem add_item_of_some_store (st : Store) (k : Nat) (v w : String)
    (h : storeFind st k = some v) : (add_item st k w).store = st := by
  rw [add_item, h]
  split
  · split <;> rfl
  · simp_all

theorem add_item_find_mono (st : Store) (k k2 : Nat) (v w : String)
    (h : storeFind st k = some v) : storeFind (add_item st k2 w).store k = some v := by
  cases hf : storeFind st k2 with
  | some u =>
      rw [add_item_of_some_store st k2 u w hf]
      exact h
  | none =>
      rw [add_item_of_none st k2 w hf]
      exact storeFind_append_of_some _ _ _ _ h

/-! ## Newline-stripping lemmas -/

theorem dropWhileNl_eq_self (m : List Char) (h : ∀ c ∈ m, c ≠ '\n') :
    m.dropWhile (fun c => c == '\n') = m := by
  cases m with
  | nil => rfl
  | cons c t =>
      rw [List.dropWhile_cons]
      have hc : c ≠ '\n' := h c (List.mem_cons_self c t)
      simp [hc]

theorem rstripNewline_eq_self (s : String) (h : ∀ c ∈ s.data, c ≠ '\n') :
    rstripNewline s = s := by
  obtain ⟨d⟩ := s
  rw [rstripNewline]
  rw [dropWhileNl_eq_self _ (by intro c hc; exact h c (List.mem_reverse.mp hc))]
  rw [List.reverse_reverse]

/-! ## Encode-side lemmas -/

/-- Bytes the encode loop writes for one input line; a helper for stating
that the output stream does not depend on the store. -/
def lineBytes (raw : String) : List Nat :=
  if rstripNewline raw = "" then [0] else digest (lineHash (rstripNewline raw))

/-- Bytes the encode loop writes for a whole input. -/
def encBytes (L : List String) : List Nat := L.flatMap lineBytes

theorem encodeLine_bytes (st : Store) (raw : String) :
    (encodeLine st raw).bytes = lineBytes raw := by
  rw [encodeLine, lineBytes]
  split <;> rfl

theorem pae_out (L : List String) (st : Store) :
    (process_and_encode st L).out = encBytes L := by
  induction L generalizing st with
  | nil => rfl
  | cons raw rest ih =>
      rw [process_and_encode]
      simp only [encBytes, List.flatMap_cons, ← encodeLine_bytes st raw]
      rw [ih]
      rfl

theorem encodeLine_find_mono (st : Store) (raw : String) (k : Nat) (v : String)
    (h : storeFind st k = some v) : storeFind (encodeLine st raw).store k = some v := by
  rw [encodeLine]
  split
  · exact h
  · exact add_item_find_mono _ _ _ _ _ h

theorem pae_find_mono (L : List String) (st : Store) (k : Nat) (v : String)
    (h : storeFind st k = some v) :
    storeFind (process_and_encode st L).store k = some v := by
  induction L generalizing st with
  | nil => exact h
  | cons raw rest ih =>
      rw [process_and_encode]
      exact ih _ (encodeLine_find_mono st raw k v h)

/-! ## Decode-side equation lemmas -/

theorem decode_nil (st : Store) : decode_and_print st [] = ⟨st, [], [], false⟩ := by
  rw [decode_and_print]

theorem decode_zero (st : Store) (r : List Nat) :
    decode_and_print st (0 :: r) =
      ⟨(decode_and_print st r).store, "" :: (decode_and_print st r).lines,
       (decode_and_print st r).events, (decode_and_print st r).truncated⟩ := by
  rw [decode_and_print.eq_def]
  rfl

theorem decode_store_eq (st : Store) (s : List Nat) : (decode_and_print st s).store = st := by
  induction s using decode_and_print.induct st with
  | case1 => simp [decode_and_print]
  | case2 rest ih =>
      rw [decode_zero]
      exact ih
  | case3 b hb b1 b2 b3 rest3 h existing hf ih => simp [decode_and_print, hb, hf, ih]
  | case4 b hb b1 b2 b3 rest3 h hf ih => simp [decode_and_print, hb, hf, ih]
  | case5 b rest hb hne =>
      cases rest with
      | nil => simp [decode_and_print, hb]
      | cons x t =>
          cases t with
          | nil => simp [decode_and_print, hb]
          | cons y t2 =>
              cases t2 with
              | nil => simp [decode_and_print, hb]
              | cons z t3 => exact (hne x y z t3 rfl).elim

theorem decode_found (st : Store) (b b1 b2 b3 : Nat) (r : List Nat) (line : String)
    (hb : b ≠ 0)
    (hf : storeFind st (b * 16777216 + b1 * 65536 + b2 * 256 + b3) = some line) :
    decode_and_print st (b :: b1 :: b2 :: b3 :: r) =
      ⟨st, line :: (decode_and_print st r).lines, (decode_and_print st r).events,
       (decode_and_print st r).truncated⟩ := by
  simp [decode_and_print, hb, hf, decode_store_eq]

theorem decode_missing (st : Store) (b b1 b2 b3 : Nat) (r : List Nat)
    (hb : b ≠ 0)
    (hf : storeFind st (b * 16777216 + b1 * 65536 + b2 * 256 + b3) = none) :
    decode_and_print st (b :: b1 :: b2 :: b3 :: r) =
      ⟨st, (decode_and_print st r).lines,
       Event.missingHash (b * 16777216 + b1 * 65536 + b2 * 256 + b3)
         :: (decode_and_print st r).events,
       (decode_and_print st r).truncated⟩ := by
  simp [decode_and_print, hb, hf, decode_store_eq]

theorem decode_trunc (st : Store) (b : Nat) (t : List Nat)
    (hb : b ≠ 0) (ht : t.length < 3) :
    decode_and_print st (b :: t) = ⟨st, [], [Event.truncatedStream], true⟩ := by
  cases t with
  | nil => simp [decode_and_print, hb]
  | cons x t1 =>
      cases t1 with
      | nil => simp [decode_and_print, hb]
      | cons y t2 =>
          cases t2 with
          | nil => simp [decode_and_print, hb]
          | cons z t3 =>
              simp only [List.length_cons] at ht
              omega

/-! ## Main decode lemma

Decoding the bytes encode wrote for lines `L`, followed by any trailing
bytes, prints exactly `L` and then behaves as decoding the trailing bytes —
provided the store maps each non-blank line's hash back to that line and no
hash's leading byte is the blank-line marker. -/

theorem lineBytes_blank : lineBytes "" = [0] := by decide

theorem decode_encBytes_append (st : Store) (L : List String) (extra : List Nat)
    (hstrip : ∀ l ∈ L, rstripNewline l = l)
    (hfind : ∀ l ∈ L, l ≠ "" → storeFind st (lineHash l) = some l)
    (hmark : ∀ l ∈ L, l ≠ "" → 16777216 ≤ lineHash l) :
    decode_and_print st (encBytes L ++ extra) =
      ⟨st, L ++ (decode_and_print st extra).lines, (decode_and_print st extra).events,
       (decode_and_print st extra).truncated⟩ := by
  induction L with
  | nil =>
      simp only [encBytes, List.flatMap_nil, List.nil_append]
      exact DecodeResult.ext (decode_store_eq st extra) rfl rfl rfl
  | cons l rest ih =>
      have hstripl : rstripNewline l = l := hstrip l (List.mem_cons_self l rest)
      have ihr := ih (fun x hx => hstrip x (List.mem_cons_of_mem l hx))
        (fun x hx hne => hfind x (List.mem_cons_of_mem l hx) hne)
        (fun x hx hne => hmark x (List.mem_cons_of_mem l hx) hne)
      by_cases hl : l = ""
      · subst hl
        have he : encBytes ("" :: rest) ++ extra = 0 :: (encBytes rest ++ extra) := by
          simp [encBytes, lineBytes_blank]
        rw [he, decode_zero, ihr]
        simp
      · have hge : 16777216 ≤ lineHash l := hmark l (List.mem_cons_self l rest) hl
        have hlt : lineHash l < M32 := lineHash_lt l
        have hb : lineHash l / 16777216 % 256 ≠ 0 := digest_head_ne _ hge hlt
        have hfl : storeFind st (lineHash l) = some l :=
          hfind l (List.mem_cons_self l rest) hl
        have he : encBytes (l :: rest) ++ extra
            = lineHash l / 16777216 % 256 :: lineHash l / 65536 % 256
              :: lineHash l / 256 % 256 :: lineHash l % 256 :: (encBytes rest ++ extra) := by
          simp [encBytes, lineBytes, hstripl, hl, digest]
        rw [he]
        rw [decode_found st _ _ _ _ _ l hb
          (by rw [digest_rebuild (lineHash l) hlt]; exact hfl)]
        rw [ihr]
        simp

/-! ## Store contents after encoding

Starting from a store whose entries all come from `all` (hash-consistent,
non-blank), encoding lines drawn from `all` leaves the store hash-consistent
and maps each non-blank encoded line's hash to that very line — provided the
non-blank lines of `all` have pairwise-distinct hashes. -/

theorem pae_store_good (all : List String)
    (hdist : ∀ a ∈ all, ∀ b ∈ all, a ≠ "" → b ≠ "" → a ≠ b → lineHash a ≠ lineHash b) :
    ∀ (L : List String) (st : Store),
      (∀ l ∈ L, l ∈ all) →
      (∀ l ∈ L, rstripNewline l = l) →
      (∀ p ∈ st, p.2 ∈ all ∧ lineHash p.2 = p.1 ∧ p.2 ≠ "") →
      (∀ p ∈ (process_and_encode st L).store, p.2 ∈ all ∧ lineHash p.2 = p.1 ∧ p.2 ≠ "") ∧
      (∀ l ∈ L, l ≠ "" → storeFind (process_and_encode st L).store (lineHash l) = some l) := by
  intro L
  induction L with
  | nil =>
      intro st _ _ hst
      exact ⟨hst, by intro l hl; simp at hl⟩
  | cons l rest ih =>
      intro st hall hstrip hst
      have hstripl : rstripNewline l = l := hstrip l (List.mem_cons_self l rest)
      have hlall : l ∈ all := hall l (List.mem_cons_self l rest)
      by_cases hl : l = ""
      · have hstep : encodeLine st l = ⟨st, [0], []⟩ := by
          rw [encodeLine, hstripl, if_pos hl]
        have hres :
            process_and_encode st (l :: rest)
              = ⟨(process_and_encode st rest).store,
                 [0] ++ (process_and_encode st rest).out,
                 [] ++ (process_and_encode st rest).events⟩ := by
          rw [process_and_encode, hstep]
        rw [hres]
        obtain ⟨h1, h2⟩ := ih st (fun x hx => hall x (List.mem_cons_of_mem l hx))
          (fun x hx => hstrip x (List.mem_cons_of_mem l hx)) hst
        refine ⟨h1, ?_⟩
        intro x hx hne
        rcases List.mem_cons.mp hx with hcase | hcase
        · exact absurd (hcase ▸ hl) hne
        · exact h2 x hcase hne
      · have hstep : (encodeLine st l).store = (add_item st (lineHash l) l).store := by
          rw [encodeLine, hstripl, if_neg hl]
        have hres : (process_and_encode st (l :: rest)).store
            = (process_and_encode (encodeLine st l).store rest).store := by
          rw [process_and_encode]
        -- the store after offering `l` maps `lineHash l` to `l`
        have hfound : storeFind (encodeLine st l).store (lineHash l) = some l := by
          rw [hstep]
          cases hf : storeFind st (lineHash l) with
          | some v =>
              have hmem := storeFind_mem st (lineHash l) v hf
              obtain ⟨hvall, hvhash, hvne⟩ := hst (lineHash l, v) hmem
              have hveq : v = l := by
                by_contra hvne2
                exact hdist v hvall l hlall hvne hl hvne2 hvhash
              rw [add_item_of_some_store st (lineHash l) v l hf]
              rw [hf, hveq]
          | none =>
              rw [add_item_of_none st (lineHash l) l hf,
                  storeFind_append_of_none st [(lineHash l, l)] (lineHash l) hf]
              simp [storeFind]
        -- the new store still satisfies the invariant
        have hinv : ∀ p ∈ (encodeLine st l).store,
            p.2 ∈ all ∧ lineHash p.2 = p.1 ∧ p.2 ≠ "" := by
          rw [hstep]
          cases hf : storeFind st (lineHash l) with
          | some v =>
              rw [add_item_of_some_store st (lineHash l) v l hf]
              exact hst
          | none =>
              rw [add_item_of_none st (lineHash l) l hf]
              intro p hp
              rcases List.mem_append.mp hp with hcase | hcase
              · exact hst p hcase
              · have : p = (lineHash l, l) := by simpa using hcase
                subst this
                exact ⟨hlall, rfl, hl⟩
        obtain ⟨h1, h2⟩ := ih (encodeLine st l).store
          (fun x hx => hall x (List.mem_cons_of_mem l hx))
          (fun x hx => hstrip x (List.mem_cons_of_mem l hx)) hinv
        refine ⟨by rw [hres]; exact h1, ?_⟩
        intro x hx hne
        rcases List.mem_cons.mp hx with hcase | hcase
        · subst hcase
          rw [hres]
          exact pae_find_mono rest _ _ _ hfound
        · rw [hres]
          exact h2 x hcase hne

/-! ## Claim theorems -/

/-- C1 (amended): for every finite sequence of input lines (no embedded
newlines) whose non-blank lines have pairwise-distinct hashes **and whose
hashes all have a non-zero leading byte**, decoding the stream produced by
encoding that sequence against the store the encoding itself built
reproduces the original sequence of lines exactly, blank lines included.
The added leading-byte condition is forced: a hash whose first byte equals
the blank-line marker 0x00 is misparsed by decode (see the counterexample). -/
theorem C1_roundtrip (lines : List String)
    (hnl : ∀ l ∈ lines, ∀ c ∈ l.data, c ≠ '\n')
    (hdist : ∀ a ∈ lines, ∀ b ∈ lines, a ≠ "" → b ≠ "" → a ≠ b → lineHash a ≠ lineHash b)
    (hmark : ∀ l ∈ lines, l ≠ "" → 16777216 ≤ lineHash l) :
    (decode_and_print (process_and_encode [] lines).store
        (process_and_encode [] lines).out).lines = lines := by
  have hstrip : ∀ l ∈ lines, rstripNewline l = l :=
    fun l hl => rstripNewline_eq_self l (hnl l hl)
  obtain ⟨hinv, hfind⟩ := pae_store_good lines hdist lines [] (fun l hl => hl) hstrip
    (by intro p hp; simp at hp)
  rw [pae_out]
  have hd := decode_encBytes_append (process_and_encode [] lines).store lines []
    hstrip hfind hmark
  rw [List.append_nil] at hd
  rw [hd, decode_nil]
  simp

/-- C1 fails as frozen: the single non-blank line "138" has trivially
pairwise-distinct hashes, yet decode of its encoding does not reproduce it,
because `xxh32("138") = 0x00D37C0A` starts with the marker byte `0x00`. -/
theorem C1_counterexample :
    (∀ a ∈ ["138"], ∀ b ∈ ["138"], a ≠ "" → b ≠ "" → a ≠ b → lineHash a ≠ lineHash b) ∧
    (∀ l ∈ ["138"], ∀ c ∈ l.data, c ≠ '\n') ∧
    (decode_and_print (process_and_encode [] ["138"]).store
        (process_and_encode [] ["138"]).out).lines ≠ ["138"] :=
  ⟨by decide, by decide, by decide⟩

/-- C1 witness: the spec's basic-round-trip scenario. Encoding
`["foo", "", "bar"]` yields the 9-byte stream `H(foo) ++ [0x00] ++ H(bar)`
and decoding it against the resulting store yields `["foo", "", "bar"]`. -/
theorem C1_witness :
    (∀ l ∈ ["foo", "", "bar"], ∀ c ∈ l.data, c ≠ '\n') ∧
    (∀ a ∈ ["foo", "", "bar"], ∀ b ∈ ["foo", "", "bar"],
      a ≠ "" → b ≠ "" → a ≠ b → lineHash a ≠ lineHash b) ∧
    (∀ l ∈ ["foo", "", "bar"], l ≠ "" → 16777216 ≤ lineHash l) ∧
    (process_and_encode [] ["foo", "", "bar"]).out
      = digest (lineHash "foo") ++ [0] ++ digest (lineHash "bar") ∧
    (process_and_encode [] ["foo", "", "bar"]).out.length = 9 ∧
    (decode_and_print (process_and_encode [] ["foo", "", "bar"]).store
        (process_and_encode [] ["foo", "", "bar"]).out).lines = ["foo", "", "bar"] :=
  ⟨by decide, by decide, by decide, by decide, by decide,
   C1_roundtrip ["foo", "", "bar"] (by decide) (by decide) (by decide)⟩

/-- C2 (amended): inserting `l1` under a fresh hash `h` returns true; a
subsequent insert of a different `l2` under the same `h` returns false,
leaves the mapping at `l1`, and emits the collision warning identifying the
hash, the existing line and the rejected line — all of this for every hash;
and, **provided the 4-byte hash's leading byte is not the marker 0x00**, a
later decode of the HashRef to `h` emits `l1`, never `l2`. The leading-byte
condition on the decode clause is forced: a HashRef whose first byte is
0x00 is misparsed by decode (see the counterexample). -/
theorem C2_collision_nonoverwrite (st : Store) (h : Nat) (l1 l2 : String)
    (hfind : storeFind st h = none) (hne : l1 ≠ l2) :
    (add_item st h l1).added = true ∧
    (add_item (add_item st h l1).store h l2).added = false ∧
    (add_item (add_item st h l1).store h l2).events = [Event.collision h l1 l2] ∧
    storeFind (add_item (add_item st h l1).store h l2).store h = some l1 ∧
    (16777216 ≤ h → h < M32 →
      (decode_and_print (add_item (add_item st h l1).store h l2).store (digest h)).lines
        = [l1]) := by
  have h1 : add_item st h l1 = ⟨st ++ [(h, l1)], true, []⟩ := add_item_of_none st h l1 hfind
  have hf1 : storeFind (st ++ [(h, l1)]) h = some l1 := by
    rw [storeFind_append_of_none st [(h, l1)] h hfind]
    simp [storeFind]
  have h2 : add_item (st ++ [(h, l1)]) h l2
      = ⟨st ++ [(h, l1)], false, [Event.collision h l1 l2]⟩ := by
    rw [add_item, hf1]
    simp only [ne_eq]
    rw [if_pos hne]
  refine ⟨by rw [h1], by rw [h1, h2], by rw [h1, h2], by rw [h1, h2]; exact hf1, ?_⟩
  intro hge hlt
  have hb : h / 16777216 % 256 ≠ 0 := digest_head_ne h hge hlt
  have hdig : digest h
      = h / 16777216 % 256 :: h / 65536 % 256 :: h / 256 % 256 :: h % 256 :: [] := by
    simp [digest]
  rw [h1, h2]
  simp only []
  rw [hdig, decode_found (st ++ [(h, l1)]) _ _ _ _ [] l1 hb
    (by rw [digest_rebuild h hlt]; exact hf1)]
  rw [decode_nil]

/-- C2 fails as frozen for a hash whose leading byte is the marker: with the
injected hash `h = 0`, the two inserts behave as claimed — including the
collision warning — and the mapping still holds `"cat"`, but decoding the
HashRef to `0` emits four blank lines and never `"cat"`. -/
theorem C2_counterexample :
    storeFind [] 0 = none ∧ ("cat" : String) ≠ "dog" ∧
    (add_item [] 0 "cat").added = true ∧
    (add_item (add_item [] 0 "cat").store 0 "dog").added = false ∧
    (add_item (add_item [] 0 "cat").store 0 "dog").events
      = [Event.collision 0 "cat" "dog"] ∧
    storeFind (add_item (add_item [] 0 "cat").store 0 "dog").store 0 = some "cat" ∧
    (decode_and_print (add_item (add_item [] 0 "cat").store 0 "dog").store (digest 0)).lines
      ≠ ["cat"] :=
  ⟨by decide, by decide, by decide, by decide, by decide, by decide, by decide⟩

/-- C2 witness: the amended claim at `h = 0x01000000`, `l1 = "cat"`,
`l2 = "dog"` over the empty store, with the decode clause discharged. -/
theorem C2_witness :
    storeFind [] 16777216 = none ∧ ("cat" : String) ≠ "dog" ∧
    (16777216 : Nat) ≤ 16777216 ∧ (16777216 : Nat) < M32 ∧
    (add_item [] 16777216 "cat").added = true ∧
    (add_item (add_item [] 16777216 "cat").store 16777216 "dog").added = false ∧
    (add_item (add_item [] 16777216 "cat").store 16777216 "dog").events
      = [Event.collision 16777216 "cat" "dog"] ∧
    storeFind (add_item (add_item [] 16777216 "cat").store 16777216 "dog").store 16777216
      = some "cat" ∧
    (decode_and_print (add_item (add_item [] 16777216 "cat").store 16777216 "dog").store
        (digest 16777216)).lines = ["cat"] :=
  ⟨by decide, by decide, by decide, by decide,
   (C2_collision_nonoverwrite [] 16777216 "cat" "dog" (by decide) (by decide)).1,
   (C2_collision_nonoverwrite [] 16777216 "cat" "dog" (by decide) (by decide)).2.1,
   (C2_collision_nonoverwrite [] 16777216 "cat" "dog" (by decide) (by decide)).2.2.1,
   (C2_collision_nonoverwrite [] 16777216 "cat" "dog" (by decide) (by decide)).2.2.2.1,
   (C2_collision_nonoverwrite [] 16777216 "cat" "dog" (by decide) (by decide)).2.2.2.2
     (by decide) (by decide)⟩

/-- C3: every non-blank input line makes the encode loop write exactly the
4-byte digest of that line's hash, whatever the store holds and whatever
`add_item` returned; and if the insertion was rejected as a collision (the
store already maps the hash to a different line), the emitted reference
still carries the colliding hash value, which resolves in the
post-encoding store to the other, pre-existing line. -/
theorem C3_emit_regardless (st : Store) (raw : String)
    (hne : rstripNewline raw ≠ "") :
    (encodeLine st raw).bytes = digest (lineHash (rstripNewline raw)) ∧
    (encodeLine st raw).bytes.length = 4 ∧
    (∀ other : String, storeFind st (lineHash (rstripNewline raw)) = some other →
      other ≠ rstripNewline raw →
      (encodeLine st raw).store = st ∧
      storeFind (encodeLine st raw).store (lineHash (rstripNewline raw)) = some other) := by
  refine ⟨?_, ?_, ?_⟩
  · rw [encodeLine, if_neg hne]
  · rw [encodeLine, if_neg hne]
    simp [digest]
  · intro other hother hne2
    have hs : (encodeLine st raw).store
        = (add_item st (lineHash (rstripNewline raw)) (rstripNewline raw)).store := by
      rw [encodeLine, if_neg hne]
    rw [hs, add_item_of_some_store st _ other _ hother]
    exact ⟨rfl, hother⟩

/-- C3 witness: encoding the line `"dog"` against a store already mapping
`H("dog")` to `"cat"` still writes `digest(H("dog"))`, leaves the store
unchanged, and the reference resolves to `"cat"`. -/
theorem C3_witness :
    rstripNewline "dog" ≠ "" ∧
    storeFind [(lineHash "dog", "cat")] (lineHash (rstripNewline "dog")) = some "cat" ∧
    ("cat" : String) ≠ rstripNewline "dog" ∧
    (encodeLine [(lineHash "dog", "cat")] "dog").bytes
      = digest (lineHash (rstripNewline "dog")) ∧
    (encodeLine [(lineHash "dog", "cat")] "dog").bytes.length = 4 ∧
    (encodeLine [(lineHash "dog", "cat")] "dog").store = [(lineHash "dog", "cat")] ∧
    storeFind (encodeLine [(lineHash "dog", "cat")] "dog").store
        (lineHash (rstripNewline "dog")) = some "cat" :=
  ⟨by decide, by decide, by decide,
   (C3_emit_regardless [(lineHash "dog", "cat")] "dog" (by decide)).1,
   (C3_emit_regardless [(lineHash "dog", "cat")] "dog" (by decide)).2.1,
   ((C3_emit_regardless [(lineHash "dog", "cat")] "dog" (by decide)).2.2 "cat"
     (by decide) (by decide)).1,
   ((C3_emit_regardless [(lineHash "dog", "cat")] "dog" (by decide)).2.2 "cat"
     (by decide) (by decide)).2⟩

/-- C4: when decode meets a non-marker byte with fewer than 3 bytes left
after it — here after any prefix of well-formed records for lines `L` that
the store resolves — it reports the truncation warning, stops (the truncated
flag is the loop break), emits no line for the partial record, and keeps
every line already emitted for the earlier records. -/
theorem C4_truncated_tail (st : Store) (L : List String) (b : Nat) (t : List Nat)
    (hstrip : ∀ l ∈ L, rstripNewline l = l)
    (hfind : ∀ l ∈ L, l ≠ "" → storeFind st (lineHash l) = some l)
    (hmark : ∀ l ∈ L, l ≠ "" → 16777216 ≤ lineHash l)
    (hb : b ≠ 0) (ht : t.length < 3) :
    decode_and_print st (encBytes L ++ (b :: t))
      = ⟨st, L, [Event.truncatedStream], true⟩ := by
  rw [decode_encBytes_append st L (b :: t) hstrip hfind hmark]
  rw [decode_trunc st b t hb ht]
  simp

/-- C4 witness: decoding `H("foo")` followed by the 3-byte partial record
`[7, 1, 2]` emits `"foo"`, then the truncation warning, and stops. -/
theorem C4_witness :
    (∀ l ∈ ["foo"], rstripNewline l = l) ∧
    (∀ l ∈ ["foo"], l ≠ ""
      → storeFind [(lineHash "foo", "foo")] (lineHash l) = some l) ∧
    (∀ l ∈ ["foo"], l ≠ "" → 16777216 ≤ lineHash l) ∧
    (7 : Nat) ≠ 0 ∧ ([1, 2] : List Nat).length < 3 ∧
    decode_and_print [(lineHash "foo", "foo")] (encBytes ["foo"] ++ (7 :: [1, 2]))
      = ⟨[(lineHash "foo", "foo")], ["foo"], [Event.truncatedStream], true⟩ :=
  ⟨by decide, by decide, by decide, by decide, by decide,
   C4_truncated_tail [(lineHash "foo", "foo")] ["foo"] 7 [1, 2]
     (by decide) (by decide) (by decide) (by decide) (by decide)⟩

/-- C8: a complete 4-byte hash record (leading byte non-marker) whose hash
is absent from the store — here after any prefix of well-formed records for
lines `L` — produces exactly the missing-hash warning identifying that hash
and no output line for that position, and decoding continues with the rest
of the stream exactly as it would have. -/
theorem C8_missing_hash (st : Store) (L : List String) (h : Nat) (rest : List Nat)
    (hstrip : ∀ l ∈ L, rstripNewline l = l)
    (hfind : ∀ l ∈ L, l ≠ "" → storeFind st (lineHash l) = some l)
    (hmark : ∀ l ∈ L, l ≠ "" → 16777216 ≤ lineHash l)
    (hge : 16777216 ≤ h) (hlt : h < M32) (hmiss : storeFind st h = none) :
    decode_and_print st (encBytes L ++ (digest h ++ rest))
      = ⟨st, L ++ (decode_and_print st rest).lines,
         Event.missingHash h :: (decode_and_print st rest).events,
         (decode_and_print st rest).truncated⟩ := by
  rw [decode_encBytes_append st L (digest h ++ rest) hstrip hfind hmark]
  have hb : h / 16777216 % 256 ≠ 0 := digest_head_ne h hge hlt
  have hdig : digest h ++ rest
      = h / 16777216 % 256 :: h / 65536 % 256 :: h / 256 % 256 :: h % 256 :: rest := by
    simp [digest]
  rw [hdig, decode_missing st _ _ _ _ rest hb
    (by rw [digest_rebuild h hlt]; exact hmiss)]
  rw [digest_rebuild h hlt]

/-- C8 witness: a stream holding `H("foo")`, then the never-inserted hash
`0x01000000`, then `H("foo")` again, decodes to `"foo"`, a missing-hash
warning for `0x01000000` and no line for that position, then `"foo"`. -/
theorem C8_witness :
    (∀ l ∈ ["foo"], rstripNewline l = l) ∧
    (∀ l ∈ ["foo"], l ≠ ""
      → storeFind [(lineHash "foo", "foo")] (lineHash l) = some l) ∧
    (∀ l ∈ ["foo"], l ≠ "" → 16777216 ≤ lineHash l) ∧
    (16777216 : Nat) ≤ 16777216 ∧ (16777216 : Nat) < M32 ∧
    storeFind [(lineHash "foo", "foo")] 16777216 = none ∧
    decode_and_print [(lineHash "foo", "foo")]
        (encBytes ["foo"] ++ (digest 16777216 ++ digest (lineHash "foo")))
      = ⟨[(lineHash "foo", "foo")],
         ["foo"] ++ (decode_and_print [(lineHash "foo", "foo")]
            (digest (lineHash "foo"))).lines,
         Event.missingHash 16777216
           :: (decode_and_print [(lineHash "foo", "foo")]
                (digest (lineHash "foo"))).events,
         (decode_and_print [(lineHash "foo", "foo")]
            (digest (lineHash "foo"))).truncated⟩ :=
  ⟨by decide, by decide, by decide, by decide, by decide, by decide,
   C8_missing_hash [(lineHash "foo", "foo")] ["foo"] 16777216 (digest (lineHash "foo"))
     (by decide) (by decide) (by decide) (by decide) (by decide) (by decide)⟩

/-- C9: decode never modifies the store — for every store and every input
byte stream, the hash-to-line mapping after `decode_and_print` equals the
mapping before it. -/
theorem C9_decode_reads_only (st : Store) (s : List Nat) :
    (decode_and_print st s).store = st :=
  decode_store_eq st s

/-- C10: after only the trailing newline is stripped, a line that still has
characters — even if they are all whitespace — is treated as non-empty by
both encode and seed: it is hashed exactly as stripped (whitespace intact),
offered to the store, and encode writes its 4-byte HashRef; only a line that
is completely empty after newline stripping produces the 1-byte
BlankMarker. -/
theorem C10_whitespace_nonblank (st : Store) (raw : String) :
    (rstripNewline raw ≠ "" →
      encodeLine st raw
        = ⟨(add_item st (lineHash (rstripNewline raw)) (rstripNewline raw)).store,
           digest (lineHash (rstripNewline raw)),
           (add_item st (lineHash (rstripNewline raw)) (rstripNewline raw)).events⟩ ∧
      (encodeLine st raw).bytes.length = 4 ∧
      seedLine st raw
        = ((add_item st (lineHash (rstripNewline raw)) (rstripNewline raw)).store,
           (add_item st (lineHash (rstripNewline raw)) (rstripNewline raw)).added)) ∧
    (rstripNewline raw = "" →
      encodeLine st raw = ⟨st, [0], []⟩ ∧ seedLine st raw = (st, false)) := by
  constructor
  · intro hne
    refine ⟨?_, ?_, ?_⟩
    · rw [encodeLine, if_neg hne]
    · rw [encodeLine, if_neg hne]
      simp [digest]
    · rw [seedLine, if_neg hne]
  · intro he
    exact ⟨by rw [encodeLine, if_pos he], by rw [seedLine, if_pos he]⟩

/-- C10 witness: the raw line `" \n"` (one space, then the newline) strips
to the whitespace-only line `" "`, which is hashed with its space intact,
inserted, and encoded as a 4-byte HashRef — not a BlankMarker. -/
theorem C10_witness :
    rstripNewline " \n" = " " ∧ (" " : String) ≠ "" ∧
    (encodeLine [] " \n"
        = ⟨(add_item [] (lineHash (rstripNewline " \n")) (rstripNewline " \n")).store,
           digest (lineHash (rstripNewline " \n")),
           (add_item [] (lineHash (rstripNewline " \n")) (rstripNewline " \n")).events⟩ ∧
      (encodeLine [] " \n").bytes.length = 4 ∧
      seedLine [] " \n"
        = ((add_item [] (lineHash (rstripNewline " \n")) (rstripNewline " \n")).store,
           (add_item [] (lineHash (rstripNewline " \n")) (rstripNewline " \n")).added)) :=
  ⟨by decide, by decide, (C10_whitespace_nonblank [] " \n").1 (by decide)⟩

/-- C5 (amended): a missing store file loads as an empty store; an existing
file whose parsing raises `IOError` (e.g. arbitrary non-gzip bytes) or
`pickle.UnpicklingError` loads as an empty store with a non-fatal warning;
and saving any store produces a file that loads back to exactly that store.
Unparsable files whose parsing raises any other exception — e.g. the
`EOFError` of a truncated gzip stream — are **not** recovered: the exception
propagates and the process dies (see the counterexample). -/
theorem C5_load_recovery :
    hashStoreLoad none = LoadOutcome.ok [] false ∧
    hashStoreLoad (some BlobContent.ioError) = LoadOutcome.ok [] true ∧
    hashStoreLoad (some BlobContent.unpicklingError) = LoadOutcome.ok [] true ∧
    ∀ st : Store, hashStoreLoad (some (hashStoreSave st)) = LoadOutcome.ok st false :=
  ⟨rfl, rfl, rfl, fun _ => rfl⟩

/-- C5 fails as frozen: an existing store file that is a truncated gzip
stream cannot be parsed, yet `_load` does not recover — `pickle.load`
raises `EOFError`, which is outside the `except (IOError,
pickle.UnpicklingError)` clause, so the constructor dies instead of
warning and returning an empty store. -/
theorem C5_counterexample :
    hashStoreLoad (some BlobContent.eofError) = LoadOutcome.fatal ∧
    ∀ st : Store, hashStoreLoad (some BlobContent.eofError) ≠ LoadOutcome.ok st true :=
  ⟨rfl, fun st h => by simp [hashStoreLoad] at h⟩

/-- C6 (amended): `collision_dedup_cli.py --seed` exits with failure status
(1) when no files match the glob pattern; `final_dedupe_cli.py --seed` does
not — it prints a notice, saves the store, and exits 0 (see the
counterexample). -/
theorem C6_seed_no_match (st : Store) (files : List (List String))
    (hf : files = []) :
    collisionSeedExit files = 1 ∧ collisionSeedExit files ≠ 0 ∧
    (finalSeedRun st files).1 = 0 := by
  subst hf
  exact ⟨rfl, by decide, rfl⟩

/-- C6 fails as frozen for `final_dedupe_cli.py`: with no files matching the
glob, its seed run exits with status 0, not failure. -/
theorem C6_counterexample :
    (finalSeedRun [] []).1 = 0 ∧ ¬ (finalSeedRun [] []).1 ≠ 0 :=
  ⟨rfl, fun h => h rfl⟩

/-- C6 witness: the amended claim with an empty match list. -/
theorem C6_witness :
    collisionSeedExit [] = 1 ∧ collisionSeedExit [] ≠ 0 ∧
    (finalSeedRun [] []).1 = 0 :=
  C6_seed_no_match [] [] rfl

/-- C7 (amended): `final_dedupe_cli.py --decode` exits with failure status
(1) when the hash file is missing; when the file exists the process always
exits 0 — in particular, on a truncated trailing record the decoder prints
the incomplete-hash-block warning, stops decoding, and the run still exits
with success status (see the counterexample). -/
theorem C7_decode_exit (st : Store) (b : Nat) (t : List Nat)
    (hb : b ≠ 0) (ht : t.length < 3) :
    (decodeOp st none).exitCode = 1 ∧
    (∀ bytes : List Nat, (decodeOp st (some bytes)).exitCode = 0) ∧
    decodeOp st (some (b :: t))
      = ⟨0, some ⟨st, [], [Event.truncatedStream], true⟩⟩ := by
  refine ⟨rfl, fun _ => rfl, ?_⟩
  rw [decodeOp, decode_trunc st b t hb ht]

/-- C7 fails as frozen: decoding the existing 2-byte hash file `[5, 1]`
finds a truncated trailing record, yet the process exits 0, not failure. -/
theorem C7_counterexample :
    (decodeOp [] (some [5, 1])).exitCode = 0 ∧
    (decodeOp [] (some [5, 1])).result
      = some ⟨[], [], [Event.truncatedStream], true⟩ :=
  ⟨rfl, by decide⟩

/-- C7 witness: the amended claim at the concrete truncated stream
`[5, 1]`. -/
theorem C7_witness :
    (5 : Nat) ≠ 0 ∧ ([1] : List Nat).length < 3 ∧
    ((decodeOp [] none).exitCode = 1 ∧
     (∀ bytes : List Nat, (decodeOp [] (some bytes)).exitCode = 0) ∧
     decodeOp [] (some (5 :: [1]))
       = ⟨0, some ⟨[], [], [Event.truncatedStream], true⟩⟩) :=
  ⟨by decide, by decide, C7_decode_exit [] 5 [1] (by decide) (by decide)⟩
